import Mathlib

/-!
# Verification of the splitwavepy measurement core

A shallow embedding of the shear-wave-splitting measurement core
(`splitwavepy/core/measure.py`, `splitwavepy/core/trio.py`,
`splitwavepy/eigval/eigval3d.py`).  Traces are lists of rationals; the
elementary vector primitives (`core.rotate`, `core.lag`, `core.chop`,
`core.unsplit`, numpy's `eigvals`) live in modules that are external to the
measurement core and are therefore abstracted into a `Core` structure of
function parameters; everything the measurement core itself computes is
translated directly into executable Lean definitions.
-/

set_option autoImplicit false

namespace Splitwave

/-- Analysis window: odd width and centre offset (from `core/window.py`,
external to the measurement core; only its data is needed here). -/
structure WindowM where
  width : ℤ
  offset : ℤ
deriving DecidableEq

/-- The seismic data object (`core/data.py`): two equal-length traces, a
sample interval and a window. -/
structure DataObj where
  x : List ℚ
  y : List ℚ
  delta : ℚ
  window : WindowM
deriving DecidableEq

/-- The elementary primitives consumed by the measurement core.  They are
defined in modules external to the core (`core/core.py`, `core/pair.py`,
numpy/scipy) and enter the embedding as abstract function parameters. -/
structure Core where
  rotate : List ℚ → List ℚ → ℚ → List ℚ × List ℚ
  lag : List ℚ → List ℚ → ℤ → List ℚ × List ℚ
  chop : List ℚ → List ℚ → ℤ → ℤ → List ℚ × List ℚ
  chopW : List ℚ → List ℚ → WindowM → List ℚ × List ℚ
  unsplit : List ℚ → List ℚ → ℚ → ℤ → List ℚ × List ℚ
  eigvalcov : List ℚ → List ℚ → ℚ × ℚ
  rotatetoD : DataObj → ℚ → DataObj
  unsplitD : DataObj → ℚ → ℚ → DataObj
  w0 : DataObj → ℤ
  w1 : DataObj → ℤ

/-- The optional keyword arguments of `Measure.gridsearch`: receiver and
source corrections (angle, even sample lag) and a target polarisation. -/
structure GridKW where
  rcvcorr : Option (ℚ × ℤ)
  srccorr : Option (ℚ × ℤ)
  pol : Option ℚ

/-- `measure.py` line 91: `win(shift)` returns the window bounds with both
start and end reduced by `int(abs(shift)/2)` samples. -/
def winOf (s0 s1 : ℤ) (shift : ℤ) : ℤ × ℤ :=
  let ds : ℤ := ((shift.natAbs / 2 : ℕ) : ℤ)
  (s0 - ds, s1 - ds)

/-- `measure.py` lines 104-112: the per-angle source correction closure,
`unsplit(x, y, srcphi - ang, srclag)` when a source correction is present. -/
def srccorrFn (C : Core) (kw : GridKW) (x y : List ℚ) (ang : ℚ) :
    List ℚ × List ℚ :=
  match kw.srccorr with
  | some (srcphi, srclag) => C.unsplit x y (srcphi - ang) srclag
  | none => (x, y)

/-- `measure.py` lines 114-128: the polarisation rotation closure,
`rotate(x, y, pol - ang)` when a target polarisation is supplied. -/
def rotpolFn (C : Core) (kw : GridKW) (x y : List ℚ) (ang : ℚ) :
    List ℚ × List ℚ :=
  match kw.pol with
  | some pol => C.rotate x y (pol - ang)
  | none => (x, y)

/-- `measure.py` lines 130-137: the grid-search inner loop function.
Removes the trial shift, applies the source correction, chops to the
shrunk window, rotates to the polarisation frame, then evaluates the
statistic. -/
def getout {α : Type} (C : Core) (kw : GridKW) (func : List ℚ → List ℚ → α)
    (s0 s1 : ℤ) (x y : List ℚ) (ang : ℚ) (shift : ℤ) : α :=
  let p1 := C.lag x y (-shift)
  let p2 := srccorrFn C kw p1.1 p1.2 ang
  let p3 := C.chop p2.1 p2.2 (winOf s0 s1 shift).1 (winOf s0 s1 shift).2
  let p4 := rotpolFn C kw p3.1 p3.2 ang
  func p4.1 p4.2

/-- One per-angle row of the grid search (`measure.py` lines 140-143):
the pair is rotated once for the angle, then the inner loop runs over the
candidate sample lags. -/
def gridsearchRow {α : Type} (C : Core) (kw : GridKW)
    (func : List ℚ → List ℚ → α) (s0 s1 : ℤ) (xy0 : List ℚ × List ℚ)
    (slags : List ℤ) (ang : ℚ) : List α :=
  let xy := C.rotate xy0.1 xy0.2 ang
  slags.map (fun shift => getout C kw func s0 s1 xy.1 xy.2 ang shift)

/-- `Measure.gridsearch` (`measure.py` lines 71-145) as a function of the
rotated-to-zero traces and the window bounds: pre-applies the receiver
correction, then maps the per-angle row over the candidate angles.  The
outer comprehension runs over angles, so the result is a list of
per-angle rows. -/
def gridsearch {α : Type} (C : Core) (kw : GridKW)
    (func : List ℚ → List ℚ → α) (degs : List ℚ) (slags : List ℤ)
    (s0 s1 : ℤ) (x y : List ℚ) : List (List α) :=
  let xy0 := match kw.rcvcorr with
    | some (rcvphi, rcvlag) => C.unsplit x y rcvphi rcvlag
    | none => (x, y)
  degs.map (gridsearchRow C kw func s0 s1 xy0 slags)

/-- One node of the `grideigval` loop (`eigval3d.py` lines 108-118):
rotate, remove the trial lag, optionally source-correct (rotate by
`srcphi - deg` then remove `srclag`), chop to the window, and take the
eigenvalue pair of the covariance matrix. -/
def grideigvalEntry (C : Core) (src : Option (ℚ × ℤ)) (w : WindowM)
    (xy0 : List ℚ × List ℚ) (lagv : ℤ) (deg : ℚ) : ℚ × ℚ :=
  let t := C.rotate xy0.1 xy0.2 deg
  let u := C.lag t.1 t.2 (-lagv)
  let u2 := match src with
    | some (srcphi, srclag) =>
        let rr := C.rotate u.1 u.2 (srcphi - deg)
        C.lag rr.1 rr.2 (-srclag)
    | none => u
  let u3 := C.chopW u2.1 u2.2 w
  C.eigvalcov u3.1 u3.2

/-- `grideigval` (`eigval3d.py` lines 51-120) as a pure function of the
traces: the surface is indexed `[lagIndex][angleIndex]` (the code writes
`lam2[jj,ii]` into arrays of shape `(len(lags), len(degs))`); each entry is
the eigenvalue pair of the corrected, chopped segment. -/
def grideigval (C : Core) (rcv src : Option (ℚ × ℤ)) (degsA : List ℚ)
    (lagsA : List ℤ) (w : WindowM) (x y : List ℚ) : List (List (ℚ × ℚ)) :=
  let xy0 := match rcv with
    | some (phi, l) => C.unsplit x y phi l
    | none => (x, y)
  lagsA.map (fun lagv => degsA.map (grideigvalEntry C src w xy0 lagv))

/-- The sanity checks of `Trio.__init__` (`trio.py` lines 66-72): data must
have an odd number of samples and the three components equal lengths. -/
def trioCheck (x y z : List ℚ) : Except String Unit :=
  if x.length % 2 = 0 then .error "data must have odd number of samples"
  else if x.length ≠ y.length ∨ x.length ≠ z.length then
    .error "x and y and z must be the same length"
  else .ok ()

/-- Modelled from the spec: `io.copy` (module `core/io.py`, not under
`src/`) produces an independent deep copy of the data object; in this
functional heap a copy is simply the value itself, sharing no mutable
state with the original. -/
def dataCopy (d : DataObj) : DataObj := d

/-- `Measure.gridsearch` with its object-level prologue (`measure.py` lines
84-98): copy the data, rotate the copy to zero, read the window bounds from
the original, and run the search on the copy's traces.  The second
component is the final state of the caller's original object: every
mutating call in the source targets the copy, so it is returned
untouched. -/
def gridsearchHeap {α : Type} (C : Core) (kw : GridKW)
    (func : List ℚ → List ℚ → α) (degs : List ℚ) (slags : List ℤ)
    (orig : DataObj) : List (List α) × DataObj :=
  let copy := C.rotatetoD (dataCopy orig) 0
  (gridsearch C kw func degs slags (C.w0 orig) (C.w1 orig) copy.x copy.y,
   orig)

/-- `Measure.data_corr` (`measure.py` lines 345-356): copy the data, then
apply receiver, target-layer and source corrections to the copy.  The
second component is the final state of the caller's original object. -/
def dataCorrHeap (C : Core) (rcvcorr srccorr : Option (ℚ × ℚ))
    (fast lagT : ℚ) (orig : DataObj) : DataObj × DataObj :=
  let dc0 := dataCopy orig
  let dc1 := match rcvcorr with
    | some (f, l) => C.unsplitD dc0 f l
    | none => dc0
  let dc2 := C.unsplitD dc1 fast lagT
  let dc3 := match srccorr with
    | some (f, l) => C.unsplitD dc2 f l
    | none => dc2
  (dc3, orig)

/-! ## Degrees of freedom and F-test (`eigval3d.py`) -/

/-- `eigval3d.py` line 140-141: the weight vector `a = np.ones(n)` with
`a[0] = a[-1] = 0.5`. -/
def ndfWeights (n : ℕ) : List ℚ :=
  ((List.replicate n (1 : ℚ)).set 0 (1 / 2)).set (n - 1) (1 / 2)

/-- `eigval3d.py` line 142: `E2 = np.sum(a * amp**2)`. -/
def E2calc (amp : List ℚ) : ℚ :=
  (List.zipWith (fun a v => a * v ^ 2) (ndfWeights amp.length) amp).sum

/-- `eigval3d.py` line 143: `E4 = np.sum((4 * a**2 / 3) * amp**4)`. -/
def E4calc (amp : List ℚ) : ℚ :=
  (List.zipWith (fun a v => (4 * a ^ 2 / 3) * v ^ 4) (ndfWeights amp.length)
    amp).sum

/-- `ndf` (`eigval3d.py` lines 122-147) as a function of the amplitude
spectrum `amp = np.absolute(np.fft.fft(y))` (the Fourier transform itself
is numpy's, external to the core): `ndf = 2 * (2 * E2**2 / E4 - 1)`. -/
def ndfCalc (amp : List ℚ) : ℚ :=
  2 * (2 * (E2calc amp) ^ 2 / E4calc amp - 1)

/-- `eigval3d.py` lines 128-134: the optional preprocessing of the noise
trace — detrend when requested (`signal.detrend`, scipy's, abstract) and
chop to the window when one is given (`core.chop`, external, abstract). -/
def ndfPre (detrendFn : List ℚ → List ℚ) (chopFn : WindowM → List ℚ → List ℚ)
    (detrend : Bool) (window : Option WindowM) (y : List ℚ) : List ℚ :=
  let y1 := if detrend then detrendFn y else y
  match window with
  | some w => chopFn w y1
  | none => y1

/-- `ndf` (`eigval3d.py` lines 122-147) on the raw noise trace: preprocess,
take the amplitude spectrum (`np.absolute ∘ np.fft.fft`, numpy's,
abstract), and apply the weighted spectral-moment formula. -/
def ndfTrace (ampSpec detrendFn : List ℚ → List ℚ)
    (chopFn : WindowM → List ℚ → List ℚ) (detrend : Bool)
    (window : Option WindowM) (y : List ℚ) : ℚ :=
  ndfCalc (ampSpec (ndfPre detrendFn chopFn detrend window y))

/-- The spec's weight convention, stated pointwise: `1/2` at the two
spectrum endpoints (the first bin and the last bin of the amplitude
spectrum), `1` at interior bins. -/
def endpointWeight (n k : ℕ) : ℚ :=
  if k = 0 ∨ k = n - 1 then 1 / 2 else 1

/-- Minimum of a list of rationals; `none` on the empty list, matching
numpy's `min` raising on an empty array. -/
def listMin : List ℚ → Option ℚ
  | [] => none
  | a :: rest =>
    some (match listMin rest with
          | none => a
          | some m => min a m)

/-- Flatten an error surface into the list of its entries. -/
def flat (surf : List (List ℚ)) : List ℚ := surf.foldr (· ++ ·) []

/-- `ftest` (`eigval3d.py` lines 149-160): the inverse F-quantile
`stats.f.ppf` is scipy's and enters as the abstract parameter `Finv`; the
code computes `lam2min * (1 + (k/(ndf-k)) * F)` with `k = 2`, raising the
host's division-by-zero error when `ndf` equals `k`. -/
def ftest (Finv : ℚ → ℚ → ℚ → ℚ) (lam2 : List (List ℚ))
    (ndfv alpha : ℚ) : Except String ℚ :=
  match listMin (flat lam2) with
  | none => .error "ValueError"
  | some lam2min =>
    if ndfv - 2 = 0 then .error "ZeroDivisionError"
    else .ok (lam2min * (1 + (2 / (ndfv - 2)) * Finv (1 - alpha) 2 ndfv))

/-- `ftest` with its default confidence parameter `alpha = 0.05`. -/
def ftestDefault (Finv : ℚ → ℚ → ℚ → ℚ) (lam2 : List (List ℚ))
    (ndfv : ℚ) : Except String ℚ :=
  ftest Finv lam2 ndfv (1 / 20)

/-! ## Confidence-region bounds (`Measure.get_errors`) -/

/-- Indices at which a boolean vector is `true`, starting the count at
`i` (the embedding of `np.where`). -/
def whereTrueAux (i : ℕ) : List Bool → List ℕ
  | [] => []
  | b :: rest =>
    if b then i :: whereTrueAux (i + 1) rest else whereTrueAux (i + 1) rest

/-- Indices at which a boolean vector is `true` (`np.where`). -/
def whereTrue (l : List Bool) : List ℕ := whereTrueAux 0 l

/-- Differences of consecutive entries (`np.diff` on a 1-D index array). -/
def diffsList : List ℕ → List ℕ
  | a :: b :: rest => (b - a) :: diffsList (b :: rest)
  | _ => []

/-- Maximum entry of a list of naturals (`ndarray.max`, with 0 for the
empty list; the empty case is guarded separately where the code would
raise). -/
def maxList (l : List ℕ) : ℕ := l.foldr max 0

/-- `measure.py` lines 436-439 applied to the angle-axis coverage vector:
duplicate end-to-end, take the largest gap between consecutive `true`
indices minus one as the longest `false` run, and subtract it from the
axis size. -/
def lengthTrueOf (v : List Bool) : ℕ :=
  v.length - (maxList (diffsList (whereTrue (v ++ v))) - 1)

/-- `measure.py` line 440: the reported fast-direction error,
`lengthTrue * fast_step * 0.25`. -/
def fdfastOf (v : List Bool) (step : ℚ) : ℚ :=
  (lengthTrueOf v : ℚ) * step * (1 / 4)

/-- `ndarray.any` over one row (`confbool.any(axis=1)` per lag row). -/
def rowAny (r : List Bool) : Bool := r.any id

/-- Columnwise `or` of the mask rows (`confbool.any(axis=0)`). -/
def colAny : List (List Bool) → List Bool
  | [] => []
  | [r] => r
  | r :: rest => List.zipWith (· || ·) r (colAny rest)

/-- The bounds extraction of `Measure.get_errors` (`measure.py` lines
426-443) after the mask has been formed: the lag bound comes from the
first and last covered lag rows (IndexError via `truth[-1]` when the mask
is empty), and the fast bound from the cyclic longest-gap computation on
the doubled angle coverage vector. -/
def getErrorsBody (lagStep fastStep : ℚ) (confbool : List (List Bool)) :
    Except String (ℚ × ℚ) :=
  let lagbool := confbool.map rowAny
  let truth := whereTrue lagbool
  match truth.head?, truth.getLast? with
  | some tf, some tl =>
    let fdlag := ((tl : ℚ) - (tf : ℚ) + 1) * lagStep * (1 / 4)
    let fastbool := colAny confbool
    match whereTrue (fastbool ++ fastbool) with
    | [] => .error "ValueError"
    | _ :: _ => .ok (fdfastOf fastbool fastStep, fdlag)
  | _, _ => .error "IndexError"

/-- `Measure.get_errors` (`measure.py` lines 404-443).  Grid steps are read
from the second and first grid entries (IndexError when a grid has fewer
than two nodes), the surface is thresholded according to `surftype`
(`ValueError` otherwise), then the bounds are extracted from the mask. -/
def getErrors (surftype : Option String) (lagsA degsA : List ℚ)
    (errsurf : List (List ℚ)) (level : ℚ) : Except String (ℚ × ℚ) :=
  match lagsA, degsA with
  | l0 :: l1 :: _, d0 :: d1 :: _ =>
    if surftype = some "max" then
      getErrorsBody (l1 - l0) (d1 - d0)
        (errsurf.map (fun row => row.map (fun v => decide (level ≤ v))))
    else if surftype = some "min" then
      getErrorsBody (l1 - l0) (d1 - d0)
        (errsurf.map (fun row => row.map (fun v => decide (v ≤ level))))
    else .error "ValueError: surftype must be min or max"
  | _, _ => .error "IndexError"

/-! ## Spec-side definitions (for refinement comparisons) -/

/-- The correction chain exactly as §4.2 of the spec words it: (1) apply a
lag of `-shift`; (2) if a source correction is present, unsplit by
`(srcAngle - ang)` degrees and `srcLag`; (3) chop to a window whose start
and end are both reduced by `floor(|shift|/2)` samples; (4) if a target
polarisation `pol` is supplied, rotate by `(pol - ang)`. -/
def specCorrectionChain (C : Core) (kw : GridKW) (s0 s1 : ℤ)
    (x y : List ℚ) (ang : ℚ) (shift : ℤ) : List ℚ × List ℚ :=
  let p1 := C.lag x y (-shift)
  let p2 := match kw.srccorr with
    | some (srcAngle, srcLag) => C.unsplit p1.1 p1.2 (srcAngle - ang) srcLag
    | none => p1
  let ds : ℤ := ((shift.natAbs / 2 : ℕ) : ℤ)
  let p3 := C.chop p2.1 p2.2 (s0 - ds) (s1 - ds)
  match kw.pol with
  | some pol => C.rotate p3.1 p3.2 (pol - ang)
  | none => p3

/-! ## Concrete instances (used to evaluate the engine on closed inputs) -/

/-- A concrete instantiation of the external primitives.  The shape and
validation behaviour of the engine do not depend on what the primitives
compute, so identity traces suffice for closed evaluations. -/
def idCore : Core where
  rotate := fun x y _ => (x, y)
  lag := fun x y _ => (x, y)
  chop := fun x y _ _ => (x, y)
  chopW := fun x y _ => (x, y)
  unsplit := fun x y _ _ => (x, y)
  eigvalcov := fun _ _ => (0, 0)
  rotatetoD := fun d _ => d
  unsplitD := fun d _ _ => d
  w0 := fun _ => 0
  w1 := fun _ => 0

/-- The keyword set with no optional corrections. -/
def kw0 : GridKW := ⟨none, none, none⟩

/-- A concrete statistic for closed evaluations. -/
def sumStat (x y : List ℚ) : ℚ := x.sum + y.sum

/-! ## List infrastructure lemmas -/

/-- Consecutive indices `i, i+1, ..., i+k-1`. -/
def run (i : ℕ) : ℕ → List ℕ
  | 0 => []
  | k + 1 => i :: run (i + 1) k

lemma whereTrueAux_append (l₁ l₂ : List Bool) :
    ∀ i, whereTrueAux i (l₁ ++ l₂) =
      whereTrueAux i l₁ ++ whereTrueAux (i + l₁.length) l₂ := by
  induction l₁ with
  | nil => intro i; simp [whereTrueAux]
  | cons b rest ih =>
    intro i
    cases b <;> simp [whereTrueAux, ih (i + 1)] <;>
      rw [show i + 1 + rest.length = i + (rest.length + 1) by omega]

lemma whereTrueAux_replicate_false (k : ℕ) :
    ∀ i, whereTrueAux i (List.replicate k false) = [] := by
  induction k with
  | zero => intro i; simp [whereTrueAux]
  | succ k ih => intro i; simp [List.replicate, whereTrueAux, ih (i + 1)]

lemma whereTrueAux_replicate_true (k : ℕ) :
    ∀ i, whereTrueAux i (List.replicate k true) = run i k := by
  induction k with
  | zero => intro i; simp [whereTrueAux, run]
  | succ k ih => intro i; simp [List.replicate, whereTrueAux, run, ih (i + 1)]

lemma run_append (j : ℕ) :
    ∀ i k, run i j ++ run (i + j) k = run i (j + k) := by
  induction j with
  | zero => intro i k; simp [run]
  | succ j ih =>
    intro i k
    simp only [run, List.cons_append]
    rw [show i + (j + 1) = (i + 1) + j by omega, ih (i + 1) k,
      show j + 1 + k = (j + k) + 1 by omega]
    rfl

lemma diffs_run (k : ℕ) :
    ∀ i, diffsList (run i (k + 1)) = List.replicate k 1 := by
  induction k with
  | zero => intro i; simp [run, diffsList]
  | succ k ih =>
    intro i
    show diffsList (i :: run (i + 1) (k + 1)) = List.replicate (k + 1) 1
    rw [show run (i + 1) (k + 1) = (i + 1) :: run (i + 2) k from rfl]
    simp [diffsList, List.replicate]
    exact ih (i + 1)

lemma diffs_run_append (j : ℕ) :
    ∀ i s (t : List ℕ),
      diffsList (run i (j + 1) ++ (s :: t)) =
        List.replicate j 1 ++ (s - (i + j)) :: diffsList (s :: t) := by
  induction j with
  | zero => intro i s t; simp [run, diffsList]
  | succ j ih =>
    intro i s t
    rw [show run i (j + 2) = i :: (i + 1) :: run (i + 2) j from rfl]
    rw [show (i :: (i + 1) :: run (i + 2) j) ++ (s :: t) =
      i :: ((i + 1) :: run (i + 2) j) ++ (s :: t) from rfl]
    rw [show ((i + 1) :: run (i + 2) j) = run (i + 1) (j + 1) from rfl]
    have hcons : ∃ h t', run (i + 1) (j + 1) ++ (s :: t) = h :: t' :=
      ⟨i + 1, run (i + 2) j ++ (s :: t), rfl⟩
    obtain ⟨h, t', ht⟩ := hcons
    rw [show diffsList (i :: run (i + 1) (j + 1) ++ (s :: t)) =
      (h - i) :: diffsList (run (i + 1) (j + 1) ++ (s :: t)) by
        rw [List.cons_append, ht]; rfl]
    rw [ih (i + 1) s t]
    have hh : h = i + 1 := by
      have : (run (i + 1) (j + 1) ++ (s :: t)).head? = some h := by
        rw [ht]; rfl
      simpa [run] using this.symm
    subst hh
    simp [List.replicate, Nat.add_sub_cancel_left]
    congr 1
    omega

lemma maxList_cons (x : ℕ) (l : List ℕ) :
    maxList (x :: l) = max x (maxList l) := rfl

lemma maxList_append (l₁ l₂ : List ℕ) :
    maxList (l₁ ++ l₂) = max (maxList l₁) (maxList l₂) := by
  induction l₁ with
  | nil => simp [maxList]
  | cons x rest ih =>
    simp only [List.cons_append, maxList_cons, ih, max_assoc]

lemma maxList_replicate_one (k : ℕ) : maxList (List.replicate k 1) ≤ 1 := by
  induction k with
  | zero => simp [maxList]
  | succ k ih => simpa [List.replicate, maxList_cons] using ih

lemma maxList_replicate_one_eq (k : ℕ) (hk : 1 ≤ k) :
    maxList (List.replicate k 1) = 1 := by
  obtain ⟨k', rfl⟩ : ∃ k', k = k' + 1 := ⟨k - 1, by omega⟩
  simp only [List.replicate, maxList_cons]
  exact max_eq_left (maxList_replicate_one k')

lemma max_nest_five (g x1 x2 x3 : ℕ) (h1 : x1 ≤ g) (h2 : x2 ≤ g)
    (h3 : x3 ≤ g) : max x1 (max g (max x2 (max g x3))) = g := by
  apply le_antisymm
  · exact max_le h1 (max_le le_rfl (max_le h2 (max_le le_rfl h3)))
  · exact le_max_of_le_right (le_max_left _ _)

lemma max_nest_three (g x1 x2 : ℕ) (h1 : x1 ≤ g) (h2 : x2 ≤ g) :
    max x1 (max g x2) = g := by
  apply le_antisymm
  · exact max_le h1 (max_le le_rfl h2)
  · exact le_max_of_le_right (le_max_left _ _)

lemma whereTrueAux_arc (B f A : ℕ) (i : ℕ) :
    whereTrueAux i
      (List.replicate B true ++
        (List.replicate f false ++ List.replicate A true)) =
      run i B ++ run (i + B + f) A := by
  rw [whereTrueAux_append, whereTrueAux_replicate_true,
    whereTrueAux_append, whereTrueAux_replicate_false,
    whereTrueAux_replicate_true]
  simp only [List.length_replicate, List.nil_append]

lemma whereTrueAux_mid (m L r : ℕ) (i : ℕ) :
    whereTrueAux i
      (List.replicate m false ++
        (List.replicate L true ++ List.replicate r false)) =
      run (i + m) L := by
  rw [whereTrueAux_append, whereTrueAux_replicate_false,
    whereTrueAux_append, whereTrueAux_replicate_true,
    whereTrueAux_replicate_false]
  simp [List.length_replicate]

lemma lengthTrueOf_arc (b' f a' : ℕ) (hf : 1 ≤ f) :
    lengthTrueOf
      (List.replicate (b' + 1) true ++
        List.replicate f false ++ List.replicate (a' + 1) true) =
      (a' + 1) + (b' + 1) := by
  rw [List.append_assoc]
  set B := b' + 1 with hB
  set A := a' + 1 with hA
  set w : List Bool :=
    List.replicate B true ++
      (List.replicate f false ++ List.replicate A true) with hw
  have hlen : w.length = B + (f + A) := by simp [hw]
  set n := B + (f + A) with hn
  have hWT : whereTrue (w ++ w) =
      run 0 B ++ (run (B + f) (A + B) ++ run (n + B + f) A) := by
    rw [whereTrue, whereTrueAux_append, hlen, whereTrueAux_arc,
      whereTrueAux_arc]
    rw [show (0 : ℕ) + B + f = B + f by omega,
      show (0 : ℕ) + n = n by omega]
    rw [List.append_assoc, ← List.append_assoc (run (B + f) A)]
    rw [show n = (B + f) + A by omega]
    rw [run_append]
  have hmidA : run (n + B + f) A = (n + B + f) :: run (n + B + f + 1) a' :=
    rfl
  have hmid : run (B + f) (A + B) =
      (B + f) :: run (B + f + 1) (a' + b' + 1) := by
    rw [show A + B = (a' + b' + 1) + 1 by omega]
    rfl
  have hD : diffsList (whereTrue (w ++ w)) =
      List.replicate b' 1 ++ (f + 1) ::
        (List.replicate (a' + b' + 1) 1 ++ (f + 1) :: List.replicate a' 1) := by
    rw [hWT, hmid]
    rw [show run 0 B ++
        (((B + f) :: run (B + f + 1) (a' + b' + 1)) ++ run (n + B + f) A) =
      run 0 (b' + 1) ++
        ((B + f) :: (run (B + f + 1) (a' + b' + 1) ++ run (n + B + f) A)) by
        simp]
    rw [diffs_run_append]
    rw [show (B + f) - (0 + b') = f + 1 by omega]
    rw [show (B + f) :: (run (B + f + 1) (a' + b' + 1) ++ run (n + B + f) A) =
      run (B + f) ((a' + b' + 1) + 1) ++ ((n + B + f) :: run (n + B + f + 1) a')
      by rw [show run (B + f) ((a' + b' + 1) + 1) =
          (B + f) :: run (B + f + 1) (a' + b' + 1) from rfl, ← hmidA]; simp]
    rw [diffs_run_append]
    rw [show (n + B + f) - ((B + f) + (a' + b' + 1)) = f + 1 by omega]
    rw [← hmidA, diffs_run]
  have hmax : maxList (diffsList (whereTrue (w ++ w))) = f + 1 := by
    rw [hD, maxList_append, maxList_cons, maxList_append, maxList_cons]
    exact max_nest_five (f + 1) _ _ _
      ((maxList_replicate_one b').trans (by omega))
      ((maxList_replicate_one (a' + b' + 1)).trans (by omega))
      ((maxList_replicate_one a').trans (by omega))
  show w.length - (maxList (diffsList (whereTrue (w ++ w))) - 1) = A + B
  rw [hmax, hlen]
  omega

lemma lengthTrueOf_mid (m r L' : ℕ) :
    lengthTrueOf
      (List.replicate m false ++
        List.replicate (L' + 1) true ++ List.replicate r false) =
      L' + 1 := by
  rw [List.append_assoc]
  set L := L' + 1 with hL
  set w : List Bool :=
    List.replicate m false ++
      (List.replicate L true ++ List.replicate r false) with hw
  have hlen : w.length = m + (L + r) := by simp [hw]
  set n := m + (L + r) with hn
  have hWT : whereTrue (w ++ w) = run m L ++ run (n + m) L := by
    rw [whereTrue, whereTrueAux_append, hlen, whereTrueAux_mid,
      whereTrueAux_mid]
    rw [show (0 : ℕ) + n + m = n + m by omega,
      show (0 : ℕ) + m = m by omega]
  have hD : diffsList (whereTrue (w ++ w)) =
      List.replicate L' 1 ++ (m + r + 1) :: List.replicate L' 1 := by
    rw [hWT]
    rw [show run (n + m) L = (n + m) :: run (n + m + 1) L' from rfl]
    rw [show run m L = run m (L' + 1) from rfl]
    rw [diffs_run_append]
    rw [show (n + m) - (m + L') = m + r + 1 by omega]
    rw [show (n + m) :: run (n + m + 1) L' = run (n + m) (L' + 1) from rfl,
      diffs_run]
  have hmax : maxList (diffsList (whereTrue (w ++ w))) = m + r + 1 := by
    rw [hD, maxList_append, maxList_cons]
    exact max_nest_three (m + r + 1) _ _
      ((maxList_replicate_one L').trans (by omega))
      ((maxList_replicate_one L').trans (by omega))
  show w.length - (maxList (diffsList (whereTrue (w ++ w))) - 1) = L
  rw [hmax, hlen]
  omega

lemma zipWith_sum_eq (f : ℚ → ℚ → ℚ) (l : List ℚ) :
    ∀ w : List ℚ, w.length = l.length →
      (List.zipWith f w l).sum =
        ∑ k ∈ Finset.range l.length, f (w.getD k 0) (l.getD k 0) := by
  induction l with
  | nil =>
    intro w hw
    simp
  | cons x rest ih =>
    intro w hw
    match w, hw with
    | wx :: wrest, hw =>
      simp only [List.zipWith, List.sum_cons, List.length_cons]
      rw [Finset.sum_range_succ']
      have hw' : wrest.length = rest.length := by
        simpa using hw
      rw [ih wrest hw']
      simp only [List.getD_cons_succ, List.getD_cons_zero]
      ring

lemma ndfWeights_length (n : ℕ) : (ndfWeights n).length = n := by
  simp [ndfWeights]

lemma ndfWeights_getD (n k : ℕ) (hk : k < n) :
    (ndfWeights n).getD k 0 = endpointWeight n k := by
  simp only [ndfWeights, endpointWeight]
  by_cases hlast : k = n - 1
  · subst hlast
    rw [List.getD_eq_getElem?_getD, List.getElem?_set_self (by simp; omega)]
    simp
  · rw [List.getD_eq_getElem?_getD, List.getElem?_set_ne (by omega)]
    by_cases h0 : k = 0
    · subst h0
      rw [List.getElem?_set_self (by simpa using hk)]
      simp
    · rw [List.getElem?_set_ne (by omega)]
      simp [List.getElem?_replicate, hk, h0, hlast]

lemma listMin_le (l : List ℚ) :
    ∀ m, listMin l = some m → ∀ x ∈ l, m ≤ x := by
  induction l with
  | nil => intro m hm; simp [listMin] at hm
  | cons a rest ih =>
    intro m hm x hx
    rw [listMin] at hm
    cases hrest : listMin rest with
    | none =>
      rw [hrest] at hm
      simp only [Option.some.injEq] at hm
      have hnil : rest = [] := by
        cases rest with
        | nil => rfl
        | cons b t => rw [listMin] at hrest; cases hrest
      subst hnil
      rcases List.mem_cons.mp hx with hxa | hx'
      · rw [hxa]; exact le_of_eq hm.symm
      · simp at hx'
    | some mr =>
      rw [hrest] at hm
      simp only [Option.some.injEq] at hm
      rcases List.mem_cons.mp hx with hxa | hx'
      · rw [hxa, ← hm]; exact min_le_left a mr
      · exact le_trans (by rw [← hm]; exact min_le_right a mr)
          (ih mr hrest x hx')

lemma listMin_mem (l : List ℚ) :
    ∀ m, listMin l = some m → m ∈ l := by
  induction l with
  | nil => intro m hm; simp [listMin] at hm
  | cons a rest ih =>
    intro m hm
    rw [listMin] at hm
    cases hrest : listMin rest with
    | none =>
      rw [hrest] at hm
      simp only [Option.some.injEq] at hm
      rw [← hm]
      exact List.mem_cons_self a rest
    | some mr =>
      rw [hrest] at hm
      simp only [Option.some.injEq] at hm
      rcases min_cases a mr with ⟨hmin, _⟩ | ⟨hmin, _⟩
      · rw [← hm, hmin]
        exact List.mem_cons_self a rest
      · rw [← hm, hmin]
        exact List.mem_cons_of_mem a (ih mr hrest)

lemma whereTrueAux_all_false (l : List Bool) :
    ∀ i, (∀ b ∈ l, b = false) → whereTrueAux i l = [] := by
  induction l with
  | nil => intro i _; rfl
  | cons b rest ih =>
    intro i h
    have hb : b = false := h b (List.mem_cons_self b rest)
    subst hb
    simp only [whereTrueAux, Bool.false_eq_true, if_false]
    exact ih (i + 1) fun c hc => h c (List.mem_cons_of_mem _ hc)

lemma rowAny_all_false (row : List ℚ) (level : ℚ)
    (h : ∀ v ∈ row, level < v) :
    rowAny (row.map fun v => decide (v ≤ level)) = false := by
  induction row with
  | nil => rfl
  | cons v rest ih =>
    rw [List.map_cons, rowAny, List.any_cons]
    have h1 : id (decide (v ≤ level)) = false := by
      simp only [id, decide_eq_false_iff_not]
      exact not_le.mpr (h v (List.mem_cons_self v rest))
    rw [h1, Bool.false_or]
    exact ih fun w hw => h w (List.mem_cons_of_mem _ hw)

lemma rowAny_replicate_true (c : ℕ) (hc : 1 ≤ c) :
    rowAny (List.replicate c true) = true := by
  obtain ⟨c', rfl⟩ : ∃ c', c = c' + 1 := ⟨c - 1, by omega⟩
  simp [rowAny, List.replicate_succ]

lemma colAny_cons_cons (v w : List Bool) (rest : List (List Bool)) :
    colAny (v :: w :: rest) = List.zipWith (· || ·) v (colAny (w :: rest)) :=
  rfl

lemma zipWith_or_replicate_true (c : ℕ) :
    List.zipWith (· || ·) (List.replicate c true) (List.replicate c true) =
      List.replicate c true := by
  induction c with
  | zero => rfl
  | succ c ih => simp [List.replicate_succ, List.zipWith, ih]

lemma colAny_replicate (c R' : ℕ) :
    colAny (List.replicate (R' + 1) (List.replicate c true)) =
      List.replicate c true := by
  induction R' with
  | zero => rfl
  | succ R ih =>
    rw [show List.replicate (R + 1 + 1) (List.replicate c true) =
      List.replicate c true :: List.replicate c true ::
        List.replicate R (List.replicate c true) from rfl]
    rw [colAny_cons_cons]
    rw [show (List.replicate c true ::
        List.replicate R (List.replicate c true)) =
      List.replicate (R + 1) (List.replicate c true) from rfl]
    rw [ih]
    exact zipWith_or_replicate_true c

lemma run_getLast? (k : ℕ) :
    ∀ i, (run i (k + 1)).getLast? = some (i + k) := by
  induction k with
  | zero => intro i; rfl
  | succ k ih =>
    intro i
    rw [show run i (k + 2) = i :: run (i + 1) (k + 1) from rfl]
    rw [show run (i + 1) (k + 1) = (i + 1) :: run (i + 2) k from rfl]
    rw [List.getLast?_cons_cons,
      show (i + 1) :: run (i + 2) k = run (i + 1) (k + 1) from rfl,
      ih (i + 1)]
    congr 1
    omega

lemma lengthTrueOf_replicate_true (c' : ℕ) :
    lengthTrueOf (List.replicate (c' + 1) true) = c' + 1 := by
  have h := lengthTrueOf_mid 0 0 c'
  simpa using h

lemma map_length_const {β γ : Type} (l : List β) (g : β → List γ) (n : ℕ)
    (h : ∀ b, (g b).length = n) :
    (l.map g).map List.length = List.replicate l.length n := by
  induction l with
  | nil => simp
  | cons xh xs ih =>
    simp only [List.map_cons, List.length_cons, List.replicate_succ, ih]
    rw [h xh]

/-! ## Claim theorems -/

/-- C5: in the grid-search inner loop, for every trial pair (ang, shift)
the corrected segment is produced in the fixed order: (1) a lag of `-shift`
applied to the pre-rotated pair; (2) if a source correction is present, an
unsplit by angle `(srcAngle - ang)` and lag `srcLag`; (3) a chop to a
window whose start and end samples are both reduced by `floor(|shift|/2)`;
(4) if a target polarisation `pol` is supplied, a rotation by `(pol - ang)`
— after which the statistic is evaluated. -/
theorem claim5_correction_order (C : Core) (kw : GridKW)
    (func : List ℚ → List ℚ → ℚ) (s0 s1 : ℤ) (x y : List ℚ) (ang : ℚ)
    (shift : ℤ) :
    getout C kw func s0 s1 x y ang shift =
      func (specCorrectionChain C kw s0 s1 x y ang shift).1
        (specCorrectionChain C kw s0 s1 x y ang shift).2 := by
  rcases kw with ⟨rcv, src, pol⟩
  cases src with
  | none =>
    cases pol with
    | none => rfl
    | some p => rfl
  | some sc =>
    rcases sc with ⟨sphi, slag⟩
    cases pol with
    | none => rfl
    | some p => rfl

/-- C9: neither a grid search nor the corrected-data view mutates the
caller's original data object: both operate on an explicit copy, and the
original's `x`, `y`, `delta` and `window` fields are unchanged afterwards. -/
theorem claim9_no_mutation (C : Core) (kw : GridKW)
    (func : List ℚ → List ℚ → ℚ) (degs : List ℚ) (slags : List ℤ)
    (rcvcorr srccorr : Option (ℚ × ℚ)) (fast lagT : ℚ) (orig : DataObj) :
    ((gridsearchHeap C kw func degs slags orig).2.x = orig.x
      ∧ (gridsearchHeap C kw func degs slags orig).2.y = orig.y
      ∧ (gridsearchHeap C kw func degs slags orig).2.delta = orig.delta
      ∧ (gridsearchHeap C kw func degs slags orig).2.window = orig.window)
    ∧ ((dataCorrHeap C rcvcorr srccorr fast lagT orig).2.x = orig.x
      ∧ (dataCorrHeap C rcvcorr srccorr fast lagT orig).2.y = orig.y
      ∧ (dataCorrHeap C rcvcorr srccorr fast lagT orig).2.delta = orig.delta
      ∧ (dataCorrHeap C rcvcorr srccorr fast lagT orig).2.window
          = orig.window) :=
  ⟨⟨rfl, rfl, rfl, rfl⟩, ⟨rfl, rfl, rfl, rfl⟩⟩

/-- C2: for every noise trace (optionally detrended and optionally
chopped), `ndf` returns `2*(2*E2^2/E4 - 1)` computed from the amplitude
spectrum `A` of the preprocessed trace, where `E2 = Σ a*A^2` and
`E4 = Σ (4*a^2/3)*A^4` with weights `a[k] = 1` on interior bins and
`a[k] = 1/2` at the two spectrum endpoints (the first and last bins); the
first conjunct states the formula for every amplitude spectrum, the second
that `ndf` on a trace is that formula applied to the spectrum of the
preprocessed trace. -/
theorem claim2_ndf_formula (amp : List ℚ) (ampSpec detrendFn : List ℚ → List ℚ)
    (chopFn : WindowM → List ℚ → List ℚ) (detrend : Bool)
    (window : Option WindowM) (y : List ℚ) :
    ndfCalc amp =
      2 * (2 * (∑ k ∈ Finset.range amp.length,
            endpointWeight amp.length k * amp.getD k 0 ^ 2) ^ 2 /
          (∑ k ∈ Finset.range amp.length,
            (4 * endpointWeight amp.length k ^ 2 / 3) * amp.getD k 0 ^ 4)
        - 1)
    ∧ ndfTrace ampSpec detrendFn chopFn detrend window y =
        ndfCalc (ampSpec (ndfPre detrendFn chopFn detrend window y)) := by
  refine ⟨?_, rfl⟩
  have h2 : E2calc amp =
      ∑ k ∈ Finset.range amp.length,
        endpointWeight amp.length k * amp.getD k 0 ^ 2 := by
    rw [E2calc,
      zipWith_sum_eq (fun a v => a * v ^ 2) amp (ndfWeights amp.length)
        (ndfWeights_length amp.length)]
    exact Finset.sum_congr rfl fun k hk => by
      rw [ndfWeights_getD amp.length k (Finset.mem_range.mp hk)]
  have h4 : E4calc amp =
      ∑ k ∈ Finset.range amp.length,
        (4 * endpointWeight amp.length k ^ 2 / 3) * amp.getD k 0 ^ 4 := by
    rw [E4calc,
      zipWith_sum_eq (fun a v => (4 * a ^ 2 / 3) * v ^ 4) amp
        (ndfWeights amp.length) (ndfWeights_length amp.length)]
    exact Finset.sum_congr rfl fun k hk => by
      rw [ndfWeights_getD amp.length k (Finset.mem_range.mp hk)]
  rw [ndfCalc, h2, h4]

/-- C3: the F-test confidence threshold equals
`lam2min * (1 + (k/(ndf-k)) * F)` with `k = 2`, where `lam2min` is the
minimum of the error surface (it bounds every entry and is attained) and
`F` is the inverse F-quantile at probability `1 - alpha` with `(k, ndf)`
degrees of freedom; `alpha` defaults to `0.05`. -/
theorem claim3_ftest_formula (Finv : ℚ → ℚ → ℚ → ℚ) (lam2 : List (List ℚ))
    (ndfv alpha m : ℚ) (hm : listMin (flat lam2) = some m)
    (hndf : ndfv ≠ 2) :
    ftest Finv lam2 ndfv alpha =
        .ok (m * (1 + (2 / (ndfv - 2)) * Finv (1 - alpha) 2 ndfv))
      ∧ (∀ v ∈ flat lam2, m ≤ v) ∧ m ∈ flat lam2
      ∧ ftestDefault Finv lam2 ndfv = ftest Finv lam2 ndfv (1 / 20) := by
  refine ⟨?_, listMin_le _ m hm, listMin_mem _ m hm, rfl⟩
  rw [ftest, hm]
  show (if ndfv - 2 = 0 then Except.error "ZeroDivisionError"
      else Except.ok (m * (1 + 2 / (ndfv - 2) * Finv (1 - alpha) 2 ndfv))) =
    Except.ok (m * (1 + 2 / (ndfv - 2) * Finv (1 - alpha) 2 ndfv))
  rw [if_neg (fun h => hndf (by linarith))]

/-- Witness for C3 at a concrete surface and quantile function. -/
theorem claim3_ftest_formula_witness :
    ftest (fun _ _ _ => (0 : ℚ)) [[(3 : ℚ), 1], [2, 5]] 10 (1 / 20) =
        .ok (1 * (1 + (2 / ((10 : ℚ) - 2)) * 0))
      ∧ (1 : ℚ) ∈ flat [[(3 : ℚ), 1], [2, 5]] := by
  have h := claim3_ftest_formula (fun _ _ _ => (0 : ℚ))
    [[(3 : ℚ), 1], [2, 5]] 10 (1 / 20) 1 (by decide) (by norm_num)
  exact ⟨h.1, h.2.2.1⟩

/-- C7 is refuted: at `ndf = 1 ≤ k = 2` the F-test computation evaluates
the threshold formula and returns a value
(`1 * (1 + (2/(1-2)) * 3) = -5`), rather than signalling an
`InsufficientDataError`. -/
theorem claim7_counterexample :
    ftest (fun _ _ _ => (3 : ℚ)) [[(1 : ℚ)]] 1 (1 / 20) = .ok (-5) := by
  rw [ftest]
  rw [show listMin (flat [[(1 : ℚ)]]) = some 1 from rfl]
  show (if (1 : ℚ) - 2 = 0 then Except.error "ZeroDivisionError"
      else Except.ok (1 * (1 + 2 / ((1 : ℚ) - 2) * 3))) = Except.ok (-5)
  rw [if_neg (by norm_num)]
  norm_num

/-- C7 (amended): the F-test computation performs no `ndf ≤ k` validation:
for `ndf < k` it evaluates and returns the usual formula, and exactly at
`ndf = k` it fails with the host's unnamed division-by-zero error; no
`InsufficientDataError` is ever signalled. -/
theorem claim7_no_ndf_guard (Finv : ℚ → ℚ → ℚ → ℚ) (lam2 : List (List ℚ))
    (ndfv alpha m : ℚ) (hm : listMin (flat lam2) = some m)
    (hndf : ndfv ≤ 2) :
    ftest Finv lam2 ndfv alpha =
      if ndfv = 2 then .error "ZeroDivisionError"
      else .ok (m * (1 + (2 / (ndfv - 2)) * Finv (1 - alpha) 2 ndfv)) := by
  rw [ftest, hm]
  show (if ndfv - 2 = 0 then Except.error "ZeroDivisionError"
      else Except.ok (m * (1 + 2 / (ndfv - 2) * Finv (1 - alpha) 2 ndfv))) = _
  by_cases h : ndfv = 2
  · rw [if_pos (by rw [h]; ring), if_pos h]
  · rw [if_neg (fun hz => h (by linarith)), if_neg h]

/-- Witness for the amended C7 at `ndf = 1`. -/
theorem claim7_no_ndf_guard_witness :
    ftest (fun _ _ _ => (3 : ℚ)) [[(1 : ℚ)]] 1 (1 / 20) =
      if (1 : ℚ) = 2 then .error "ZeroDivisionError"
      else .ok (1 * (1 + (2 / ((1 : ℚ) - 2)) * 3)) :=
  claim7_no_ndf_guard (fun _ _ _ => (3 : ℚ)) [[(1 : ℚ)]] 1 (1 / 20) 1
    (by decide) (by norm_num)

/-- C6 is refuted: with an empty candidate angle set the grid search does
not fail — it returns the empty surface. -/
theorem claim6_counterexample :
    gridsearch idCore kw0 sumStat ([] : List ℚ) [(0 : ℤ)] 0 0
      [1, 2, 3] [4, 5, 6] = [] := rfl

/-- C6 (amended): the grid search itself performs no validation — an empty
angle set yields an empty surface and an empty lag set yields all-empty
rows — while the odd-length requirement is enforced at data construction
time, where `Trio.__init__` raises the generic exception
`data must have odd number of samples` for even-length input. -/
theorem claim6_no_validation :
    (∀ (C : Core) (kw : GridKW) (func : List ℚ → List ℚ → ℚ)
        (slags : List ℤ) (s0 s1 : ℤ) (x y : List ℚ),
      gridsearch C kw func [] slags s0 s1 x y = [])
    ∧ (∀ (C : Core) (kw : GridKW) (func : List ℚ → List ℚ → ℚ)
        (degs : List ℚ) (s0 s1 : ℤ) (x y : List ℚ),
      gridsearch C kw func degs [] s0 s1 x y = degs.map fun _ => [])
    ∧ (∀ x y z : List ℚ, x.length % 2 = 0 →
      trioCheck x y z = .error "data must have odd number of samples") := by
  refine ⟨?_, ?_, ?_⟩
  · intro C kw func slags s0 s1 x y
    simp [gridsearch]
  · intro C kw func degs s0 s1 x y
    simp only [gridsearch]
    exact List.map_congr_left fun ang _ => rfl
  · intro x y z h
    rw [trioCheck, if_pos h]

/-- Witness for the amended C6 on a concrete even-length trace. -/
theorem claim6_no_validation_witness :
    trioCheck [1, 2] [1, 2] [1, 2] =
      .error "data must have odd number of samples" :=
  claim6_no_validation.2.2 [1, 2] [1, 2] [1, 2] (by decide)

/-- C10: for every `surftype` argument other than exactly `min` or `max`
(including the omitted default `None`), `Measure.get_errors` fails with a
`ValueError` before computing any bounds, provided the grid steps are
readable (at least two lag and two angle nodes). -/
theorem claim10_surftype_validation (st : Option String)
    (lagsA degsA : List ℚ) (errsurf : List (List ℚ)) (level : ℚ)
    (hl : 2 ≤ lagsA.length) (hd : 2 ≤ degsA.length)
    (hmax : st ≠ some "max") (hmin : st ≠ some "min") :
    getErrors st lagsA degsA errsurf level =
      .error "ValueError: surftype must be min or max" := by
  rcases lagsA with _ | ⟨l0, _ | ⟨l1, lrest⟩⟩
  · simp at hl
  · simp at hl
  · rcases degsA with _ | ⟨d0, _ | ⟨d1, drest⟩⟩
    · simp at hd
    · simp at hd
    · rw [getErrors]
      rw [if_neg hmax, if_neg hmin]

/-- Witness for C10 at the omitted default `surftype = None`. -/
theorem claim10_surftype_validation_witness :
    getErrors none [0, 1] [0, 1] [[1, 1], [1, 1]] 0 =
      .error "ValueError: surftype must be min or max" :=
  claim10_surftype_validation none [0, 1] [0, 1] [[1, 1], [1, 1]] 0
    (by decide) (by decide) (by decide) (by decide)

/-- C4: the fast-direction error duplicates the angle-axis coverage vector
end-to-end, finds the longest run of consecutive `false` entries in the
doubled vector, sets `lengthTrue = totalAngles - lengthFalse`, and reports
`lengthTrue * angleStep / 4`; consequently any coverage mask whose true
region is a cyclic arc straddling the wraparound (`b` bins at the start,
`a` bins at the end, `f ≥ 1` uncovered bins between) yields exactly the
same Δfast as a contiguous mid-axis run of the same length `a + b` on the
same axis. -/
theorem claim4_cyclic_fast_error (a b f m r : ℕ) (step : ℚ)
    (ha : 1 ≤ a) (hb : 1 ≤ b) (hf : 1 ≤ f) (hmr : m + r = f) :
    fdfastOf (List.replicate b true ++ List.replicate f false ++
        List.replicate a true) step =
      fdfastOf (List.replicate m false ++ List.replicate (a + b) true ++
        List.replicate r false) step
    ∧ fdfastOf (List.replicate b true ++ List.replicate f false ++
        List.replicate a true) step = ((a + b : ℕ) : ℚ) * step * (1 / 4) := by
  obtain ⟨a', rfl⟩ : ∃ a', a = a' + 1 := ⟨a - 1, by omega⟩
  obtain ⟨b', rfl⟩ : ∃ b', b = b' + 1 := ⟨b - 1, by omega⟩
  have hwrap := lengthTrueOf_arc b' f a' hf
  have hL : a' + 1 + (b' + 1) = a' + b' + 1 + 1 := by omega
  have hmid := lengthTrueOf_mid m r (a' + b' + 1)
  rw [hL] at hwrap ⊢
  constructor
  · rw [fdfastOf, fdfastOf, hwrap, hmid]
  · rw [fdfastOf, hwrap]

/-- Witness for C4 at the spec's own example: a 90-bin axis covered at the
last three and first two indices, against a five-bin mid-axis run. -/
theorem claim4_cyclic_fast_error_witness :
    fdfastOf (List.replicate 2 true ++ List.replicate 85 false ++
        List.replicate 3 true) 2 =
      fdfastOf (List.replicate 40 false ++ List.replicate (3 + 2) true ++
        List.replicate 45 false) 2
    ∧ fdfastOf (List.replicate 2 true ++ List.replicate 85 false ++
        List.replicate 3 true) 2 = ((3 + 2 : ℕ) : ℚ) * 2 * (1 / 4) :=
  claim4_cyclic_fast_error 3 2 85 40 45 2 (by omega) (by omega) (by omega)
    (by omega)

/-- C1 is refuted for `Measure.gridsearch`: on a grid of 2 angles and
3 lags the returned surface has 2 rows, not `len(lags) = 3` — the outer
index is the angle, not the lag. -/
theorem claim1_counterexample :
    (gridsearch idCore kw0 sumStat [0, 1] [0, 2, 4] 0 0 [1] [1]).length ≠
      [(0 : ℤ), 2, 4].length := by decide

/-- C1 (amended): `Measure.gridsearch` returns a surface of shape
`(len(angles), len(lags))` indexed `[angleIndex][lagIndex]`, whereas
`grideigval` returns a surface of shape `(len(lags), len(angles))` indexed
`[lagIndex][angleIndex]`; in both cases every entry is the well-defined
value of the statistic (exact arithmetic has no NaN/Inf). -/
theorem claim1_surface_shapes {α : Type} (C : Core) (kw : GridKW)
    (func : List ℚ → List ℚ → α) (degs : List ℚ) (slags : List ℤ)
    (s0 s1 : ℤ) (x y : List ℚ) (rcv src : Option (ℚ × ℤ)) (degsA : List ℚ)
    (lagsA : List ℤ) (w : WindowM) (x2 y2 : List ℚ) :
    (gridsearch C kw func degs slags s0 s1 x y).length = degs.length
    ∧ (gridsearch C kw func degs slags s0 s1 x y).map List.length =
        List.replicate degs.length slags.length
    ∧ (grideigval C rcv src degsA lagsA w x2 y2).length = lagsA.length
    ∧ (grideigval C rcv src degsA lagsA w x2 y2).map List.length =
        List.replicate lagsA.length degsA.length := by
  refine ⟨by simp [gridsearch], ?_, by simp [grideigval], ?_⟩
  · simp only [gridsearch]
    exact map_length_const degs _ slags.length
      (fun ang => by simp [gridsearchRow])
  · simp only [grideigval]
    exact map_length_const lagsA _ degsA.length (fun lagv => by simp)

lemma getErrorsBody_empty_mask (lagStep fastStep : ℚ)
    (confbool : List (List Bool))
    (h : whereTrue (confbool.map rowAny) = []) :
    getErrorsBody lagStep fastStep confbool = .error "IndexError" := by
  simp only [getErrorsBody, h]
  rfl

lemma getErrorsBody_full_mask (lagStep fastStep : ℚ) (R' c' : ℕ) :
    getErrorsBody lagStep fastStep
        (List.replicate (R' + 1) (List.replicate (c' + 1) true)) =
      .ok (((c' + 1 : ℕ) : ℚ) * fastStep * (1 / 4),
        ((R' + 1 : ℕ) : ℚ) * lagStep * (1 / 4)) := by
  simp only [getErrorsBody, List.map_replicate,
    rowAny_replicate_true (c' + 1) (by omega), whereTrue,
    whereTrueAux_replicate_true]
  have hh : (run 0 (R' + 1)).head? = some 0 := rfl
  have hl : (run 0 (R' + 1)).getLast? = some (0 + R') := run_getLast? R' 0
  rw [hh, hl]
  rw [colAny_replicate]
  rw [← List.replicate_add,
    show (c' + 1) + (c' + 1) = (2 * c' + 1) + 1 by omega]
  rw [whereTrueAux_replicate_true]
  rw [show run 0 (2 * c' + 1 + 1) = 0 :: run 1 (2 * c' + 1) from rfl]
  have hfast : fdfastOf (List.replicate (c' + 1) true) fastStep =
      ((c' + 1 : ℕ) : ℚ) * fastStep * (1 / 4) := by
    rw [fdfastOf, lengthTrueOf_replicate_true]
  rw [hfast]
  push_cast
  ring_nf

/-- C8 is refuted: with a full 95% confidence mask (every node within the
level) `Measure.get_errors` does not signal an error — it returns the
full-range pair `(Δfast, Δlag) = (5, 3/4)` on a 3-lag × 2-angle grid. -/
theorem claim8_counterexample :
    getErrors (some "min") [0, 1, 2] [0, 10] [[0, 0], [0, 0], [0, 0]] 1 =
      .ok (5, 3 / 4) := by
  rw [show getErrors (some "min") [0, 1, 2] [0, 10]
      [[(0 : ℚ), 0], [0, 0], [0, 0]] 1 =
    getErrorsBody (1 - 0) (10 - 0)
      ([[(0 : ℚ), 0], [0, 0], [0, 0]].map
        (fun row => row.map (fun v => decide (v ≤ 1)))) from by
      rw [getErrors, if_neg (by decide), if_pos rfl]]
  rw [show ([[(0 : ℚ), 0], [0, 0], [0, 0]].map
      (fun row => row.map (fun v => decide (v ≤ 1)))) =
    List.replicate (2 + 1) (List.replicate (1 + 1) true) from by decide]
  rw [getErrorsBody_full_mask]
  norm_num

/-- C8 (amended): `Measure.get_errors` does not signal a
`DegenerateConfidenceRegionError` on degenerate masks: when the 95%
confidence mask is empty it fails with a generic `IndexError` (from
indexing the empty covered-lag list), and when the mask covers every node
it returns the full-range values
`(Δfast, Δlag) = (nAngles*angleStep/4, nLags*lagStep/4)`. -/
theorem claim8_degenerate_masks (lagsA degsA : List ℚ)
    (errsurf : List (List ℚ)) (level : ℚ) (cols : ℕ)
    (hl : 2 ≤ lagsA.length) (hd : 2 ≤ degsA.length) (hne : errsurf ≠ [])
    (hrect : ∀ row ∈ errsurf, row.length = cols) (hcols : 1 ≤ cols) :
    ((∀ row ∈ errsurf, ∀ v ∈ row, level < v) →
      getErrors (some "min") lagsA degsA errsurf level =
        .error "IndexError")
    ∧ ((∀ row ∈ errsurf, ∀ v ∈ row, v ≤ level) →
      getErrors (some "min") lagsA degsA errsurf level =
        .ok ((cols : ℚ) * (degsA.getD 1 0 - degsA.getD 0 0) * (1 / 4),
          (errsurf.length : ℚ) *
            (lagsA.getD 1 0 - lagsA.getD 0 0) * (1 / 4))) := by
  rcases lagsA with _ | ⟨l0, _ | ⟨l1, lrest⟩⟩
  · simp at hl
  · simp at hl
  rcases degsA with _ | ⟨d0, _ | ⟨d1, drest⟩⟩
  · simp at hd
  · simp at hd
  obtain ⟨R', hR⟩ : ∃ R', errsurf.length = R' + 1 := by
    cases errsurf with
    | nil => exact absurd rfl hne
    | cons r rs => exact ⟨rs.length, rfl⟩
  obtain ⟨c', rfl⟩ : ∃ c', cols = c' + 1 := ⟨cols - 1, by omega⟩
  constructor
  · intro habove
    rw [getErrors, if_neg (by decide), if_pos rfl]
    apply getErrorsBody_empty_mask
    apply whereTrueAux_all_false
    intro bb hbb
    rw [List.map_map] at hbb
    obtain ⟨row, hrow, rfl⟩ := List.mem_map.mp hbb
    exact rowAny_all_false row level (habove row hrow)
  · intro hbelow
    rw [getErrors, if_neg (by decide), if_pos rfl]
    have hcb : errsurf.map (fun row => row.map (fun v => decide (v ≤ level)))
        = List.replicate (R' + 1) (List.replicate (c' + 1) true) := by
      rw [List.eq_replicate_iff]
      refine ⟨by simpa using hR, ?_⟩
      intro brow hbrow
      obtain ⟨row, hrow, rfl⟩ := List.mem_map.mp hbrow
      rw [List.eq_replicate_iff]
      refine ⟨by simpa using hrect row hrow, ?_⟩
      intro bit hbit
      obtain ⟨v, hv, rfl⟩ := List.mem_map.mp hbit
      exact decide_eq_true (hbelow row hrow v hv)
    rw [hcb, getErrorsBody_full_mask]
    simp only [List.getD_cons_succ, List.getD_cons_zero, hR]

/-- Witness for the amended C8 on a concrete surface: a level below every
node gives the IndexError branch, and a level above every node gives the
full-range values. -/
theorem claim8_degenerate_masks_witness :
    (getErrors (some "min") [0, 1, 2] [0, 10] [[2, 2], [2, 2], [2, 2]] 1 =
      .error "IndexError")
    ∧ (getErrors (some "min") [0, 1, 2] [0, 10] [[0, 0], [0, 0], [0, 0]] 7 =
      .ok ((2 : ℚ) * (10 - 0) * (1 / 4), (3 : ℚ) * (1 - 0) * (1 / 4))) := by
  have h1 := (claim8_degenerate_masks [0, 1, 2] [0, 10]
    [[2, 2], [2, 2], [2, 2]] 1 2 (by decide) (by decide) (by decide)
    (by decide) (by decide)).1 (by decide)
  have h2 := (claim8_degenerate_masks [0, 1, 2] [0, 10]
    [[0, 0], [0, 0], [0, 0]] 7 2 (by decide) (by decide) (by decide)
    (by decide) (by decide)).2 (by decide)
  constructor
  · exact h1
  · simpa using h2

end Splitwave
